import Mathlib

/-!
Verification of the arduino-cli resolution engine and recipe pipeline.

The embedding follows the Go sources:
- arduino/cores/packagemanager (ResolveFQBN, FindToolsRequiredForBoard,
  FindToolDependency, the fluent package/tool/release accessors);
- legacy/builder/builder.go (Builder.Run, the fail-fast main sequence and
  the best-effort secondary sequence);
- arduino/utils/search.go (Match, removeDiatrics).

The cores data model (Packages, Package, Platform, PlatformRelease, Board,
Tool, ToolRelease, ToolDependency and their accessors) is not part of the
given sources; those definitions are modelled from the specification and
carry a note saying so. Go maps are modelled as association lists, nil
pointers as Option, and errors as explicit error values.
-/

namespace ArduinoCli

/-- Modelled from the spec: the merged build properties, a mapping from
dotted string keys to string values (properties.Map in Go). Indexing a
missing key yields the empty string, as for a Go map of strings. -/
structure PropMap where
  entries : List (String × String)
deriving DecidableEq

/-- Modelled from the spec: reading a property; a missing key reads as the
empty string, mirroring Go map indexing. -/
def PropMap.get (m : PropMap) (k : String) : String :=
  match m.entries.find? (fun p => p.1 == k) with
  | some p => p.2
  | none => ""

/-- Models Go strings.Split for a one-character separator, working on the
character list of the string. Splitting the empty list yields one empty
part, as strings.Split does for the empty string. -/
def splitChar (c : Char) : List Char → List (List Char)
  | [] => [[]]
  | x :: xs =>
    if x = c then [] :: splitChar c xs
    else
      match splitChar c xs with
      | [] => [[x]]
      | y :: ys => (x :: y) :: ys

/-- Modelled from the spec: a tool release, an installed version of a named
external program. The packager and toolName fields encode the back-reference
to the owning tool and its package (ToolRelease.Tool in Go); the Go string
key PACKAGER:TOOL is computed from them. -/
structure ToolRelease where
  packager : String
  toolName : String
  version : String
  installed : Bool
deriving DecidableEq

/-- The Go map key for a tool release: the String() of its owning tool,
that is PACKAGER:TOOL. -/
def ToolRelease.key (r : ToolRelease) : String :=
  r.packager ++ ":" ++ r.toolName

/-- Modelled from the spec: an explicit tool dependency declared by a
platform release, a (packager, toolName, version) triple. -/
structure ToolDependency where
  toolPackager : String
  toolName : String
  toolVersion : String
deriving DecidableEq

/-- Modelled from the spec: a tool, a named external program owning its
releases keyed by version string. -/
structure Tool where
  name : String
  releases : List ToolRelease
deriving DecidableEq

/-- Modelled from the spec: Tool.GetRelease, the lookup of a release by its
version string. It does not look at the installed flag. -/
def Tool.getRelease (t : Tool) (version : String) : Option ToolRelease :=
  t.releases.find? (fun r => r.version == version)

/-- Lexicographic order on character lists, the version comparator of the
model (the spec leaves the exact comparator open and assumes versions are
totally ordered). -/
def charListLt : List Char → List Char → Bool
  | [], [] => false
  | [], _ :: _ => true
  | _ :: _, [] => false
  | a :: as, b :: bs => if a < b then true else if b < a then false else charListLt as bs

/-- The version order of the model, on the version strings. -/
def versionLt (a b : String) : Bool := charListLt a.data b.data

/-- Modelled from the spec: Tool.GetLatestInstalled, the installed release
with the maximal version (versions totally ordered, here lexicographically),
or none when no release is installed. -/
def Tool.getLatestInstalled (t : Tool) : Option ToolRelease :=
  (t.releases.filter (fun r => r.installed)).foldl
    (fun acc r =>
      match acc with
      | none => some r
      | some b => if versionLt b.version r.version then some r else some b)
    none

/-- Modelled from the spec: a board, identified by its id within the owning
platform release, with a method computing the merged build properties from
the configuration overrides of the FQBN. The computation itself is an
external collaborator here, so it is carried as a function field. -/
structure Board where
  boardID : String
  getBuildProperties : List (String × String) → Except String PropMap

/-- Modelled from the spec: one version of a platform, owning boards and
declaring explicit tool dependencies; the installed flag marks the active
release. -/
structure PlatformRelease where
  version : String
  installed : Bool
  boards : List Board
  dependencies : List ToolDependency

/-- Board lookup by id within a platform release (a Go map lookup). -/
def PlatformRelease.findBoard (pr : PlatformRelease) (id : String) : Option Board :=
  pr.boards.find? (fun b => b.boardID == id)

/-- Modelled from the spec: one architecture within a package, owning its
releases. -/
structure Platform where
  architecture : String
  releases : List PlatformRelease

/-- Modelled from the spec: Platform.GetInstalled, the release marked
installed, or none. The spec guarantees at most one release is installed at
a time; the first one found is returned. -/
def Platform.getInstalled (p : Platform) : Option PlatformRelease :=
  p.releases.find? (fun r => r.installed)

/-- Modelled from the spec: a package, a named vendor of platforms (keyed
by architecture) and tools (keyed by name). -/
structure Package where
  name : String
  platforms : List Platform
  tools : List Tool

/-- Platform lookup by architecture within a package (a Go map lookup). -/
def Package.findPlatform (p : Package) (arch : String) : Option Platform :=
  p.platforms.find? (fun pl => pl.architecture == arch)

/-- Tool lookup by name within a package (a Go map lookup). -/
def Package.findTool (p : Package) (n : String) : Option Tool :=
  p.tools.find? (fun t => t.name == n)

/-- Modelled from the spec: the package registry (cores.Packages), a map
from package name to package, here an association by the name field. -/
structure Packages where
  packages : List Package

/-- Package lookup by name in the registry (a Go map lookup). -/
def Packages.findPackage (pm : Packages) (n : String) : Option Package :=
  pm.packages.find? (fun p => p.name == n)

/-- A parsed FQBN: package name, platform architecture, board id and the
configuration overrides. Parsing the string form is out of scope. -/
structure FQBN where
  packageName : String
  platformArch : String
  boardID : String
  configs : List (String × String)
deriving DecidableEq

/-- The error kinds of ResolveFQBN, one per return site of the Go code. -/
inductive ResolveError where
  | unknownPackage (pkg : String)
  | unknownPlatform (pkg arch : String)
  | platformNotInstalled
  | boardNotFound (boardID : String)
  | invalidBuildProperties (msg : String)
  | missingCorePackage (pkg : String)
deriving DecidableEq

/-- The six return values of ResolveFQBN: on failure every value resolved
before the failing step is populated, the rest are none (nil in Go). -/
structure ResolveResult where
  pkg : Option Package
  platformRelease : Option PlatformRelease
  board : Option Board
  buildProperties : Option PropMap
  buildPlatformRelease : Option PlatformRelease
  err : Option ResolveError

/-- ResolveFQBN from arduino/cores/packagemanager. The registry state is
threaded through and returned, mirroring the method receiver, so that the
absence of writes is a provable fact rather than an assumption. Note that
the Go code takes coreParts[1], the component AFTER the colon of the merged
build.core value, as the referred package name, and that when the referred
package exists but has no installed release for the architecture the
result is a success carrying a none build platform release (the Go call
GetInstalled on a missing platform is modelled from the spec as none). -/
def resolveFQBN (pm : Packages) (fqbn : FQBN) : ResolveResult × Packages :=
  match pm.findPackage fqbn.packageName with
  | none =>
    (⟨none, none, none, none, none, some (ResolveError.unknownPackage fqbn.packageName)⟩, pm)
  | some targetPackage =>
    match targetPackage.findPlatform fqbn.platformArch with
    | none =>
      (⟨some targetPackage, none, none, none, none,
        some (ResolveError.unknownPlatform targetPackage.name fqbn.platformArch)⟩, pm)
    | some platform =>
      match platform.getInstalled with
      | none =>
        (⟨some targetPackage, none, none, none, none,
          some ResolveError.platformNotInstalled⟩, pm)
      | some platformRelease =>
        match platformRelease.findBoard fqbn.boardID with
        | none =>
          (⟨some targetPackage, some platformRelease, none, none, none,
            some (ResolveError.boardNotFound fqbn.boardID)⟩, pm)
        | some board =>
          match board.getBuildProperties fqbn.configs with
          | Except.error e =>
            (⟨some targetPackage, some platformRelease, some board, none, none,
              some (ResolveError.invalidBuildProperties e)⟩, pm)
          | Except.ok buildProperties =>
            match splitChar ':' (buildProperties.get "build.core").data with
            | _ :: corePart1 :: _ =>
              match pm.findPackage (String.mk corePart1) with
              | none =>
                (⟨some targetPackage, some platformRelease, some board,
                  some buildProperties, none,
                  some (ResolveError.missingCorePackage (String.mk corePart1))⟩, pm)
              | some buildPackage =>
                (⟨some targetPackage, some platformRelease, some board,
                  some buildProperties,
                  (buildPackage.findPlatform fqbn.platformArch).bind Platform.getInstalled,
                  none⟩, pm)
            | _ =>
              (⟨some targetPackage, some platformRelease, some board,
                some buildProperties, some platformRelease, none⟩, pm)

/-- FindToolDependency: the fluent chain Package(name).Tool(name).
Release(version).Get() collapsed to an Option, none when any step fails,
exactly as the Go function discards the forwarded error and returns nil. -/
def findToolDependency (pm : Packages) (dep : ToolDependency) : Option ToolRelease :=
  match pm.findPackage dep.toolPackager with
  | none => none
  | some p =>
    match p.findTool dep.toolName with
    | none => none
    | some t => t.getRelease dep.toolVersion

/-- The PACKAGER:TOOL keyed map of found tools, an association list with
Go map insert-or-replace semantics. -/
abbrev ToolMap := List (String × ToolRelease)

/-- Go map assignment: replace the entry with the given key, or append. -/
def ToolMap.insert (m : ToolMap) (k : String) (v : ToolRelease) : ToolMap :=
  if m.any (fun p => p.1 == k) then
    m.map (fun p => if p.1 == k then (k, v) else p)
  else m ++ [(k, v)]

/-- The seeding pass of FindToolsRequiredForBoard: for every tool of every
package of the registry, the latest installed release keyed by
PACKAGER:TOOL; tools with no installed release are skipped. -/
def seedTools (pm : Packages) (m : ToolMap) : ToolMap :=
  pm.packages.foldl
    (fun m p =>
      p.tools.foldl
        (fun m t =>
          match t.getLatestInstalled with
          | some rel => ToolMap.insert m rel.key rel
          | none => m)
        m)
    m

/-- The error of FindToolsRequiredForBoard: an explicit dependency that
did not resolve. -/
inductive FindToolsError where
  | toolReleaseNotFound (dep : ToolDependency)
deriving DecidableEq

/-- The override pass of FindToolsRequiredForBoard: each declared
dependency replaces the seeded entry for its key; the first dependency
that does not resolve aborts the whole computation. -/
def applyDeps (pm : Packages) : List ToolDependency → ToolMap → Except FindToolsError ToolMap
  | [], m => Except.ok m
  | dep :: rest, m =>
    match findToolDependency pm dep with
    | none => Except.error (FindToolsError.toolReleaseNotFound dep)
    | some rel => applyDeps pm rest (ToolMap.insert m rel.key rel)

/-- FindToolsRequiredForBoard from arduino/cores/packagemanager. The Go
function receives the board and reads only its owning platform release
through the back-reference board.PlatformRelease; here the owning release
is passed directly. The registry state is threaded and returned, as for
resolveFQBN. On failure no partial tool set is returned. -/
def findToolsRequiredForBoard (pm : Packages) (platform : PlatformRelease) :
    Except FindToolsError (List ToolRelease) × Packages :=
  match applyDeps pm platform.dependencies (seedTools pm []) with
  | Except.error e => (Except.error e, pm)
  | Except.ok m => (Except.ok (m.map (fun p => p.2)), pm)

/-- The list the seeding pass is meant to produce: the latest installed
release of every tool of every package of the registry, in registry order,
tools with no installed release skipped. -/
def latestToolReleases (pm : Packages) : List ToolRelease :=
  pm.packages.flatMap (fun p => p.tools.filterMap Tool.getLatestInstalled)

/-- A registry name that is usable as a component of a PACKAGER:TOOL key:
it contains no colon. -/
def GoodName (s : String) : Prop := ':' ∉ s.data

/-- Registry well-formedness: package names are distinct and colon-free,
tool names are distinct within a package, and every release carries the
back-reference of its owning tool and package in its packager and toolName
fields (in Go this holds by construction of the object graph). -/
def Packages.WellFormed (pm : Packages) : Prop :=
  (pm.packages.map Package.name).Nodup ∧
  ∀ p ∈ pm.packages, GoodName p.name ∧
    (p.tools.map Tool.name).Nodup ∧
    ∀ t ∈ p.tools, ∀ r ∈ t.releases, r.packager = p.name ∧ r.toolName = t.name

instance (s : String) : Decidable (GoodName s) :=
  inferInstanceAs (Decidable (':' ∉ s.data))

instance (pm : Packages) : Decidable pm.WellFormed :=
  inferInstanceAs (Decidable (_ ∧ _))

/-- The observable events of one run of Builder.Run from
legacy/builder/builder.go: execution of the i-th command of the main
sequence, the SaveCompilationDatabase call between the two sequences, and
execution of the i-th command of the secondary sequence. -/
inductive BuildEvent where
  | mainStage (i : Nat)
  | saveCompilationDatabase
  | secondaryStage (i : Nat)
deriving DecidableEq

/-- The command loop of Builder.Run: run the commands in order, stop at the
first error (fail-fast). Returns the first error if any, the state after
the last completed command (a failing command leaves the state as it found
it, commands being atomic here), and the number of commands that were
started. -/
def runCmds {α E : Type} : List (α → Except E α) → α → Option E × α × Nat
  | [], st => (none, st, 0)
  | c :: rest, st =>
    match c st with
    | Except.error e => (some e, st, 1)
    | Except.ok st2 =>
      let r := runCmds rest st2
      (r.1, r.2.1, r.2.2 + 1)

/-- Builder.Run from legacy/builder/builder.go, with the concrete commands
abstracted into the two command lists (they call external collaborators).
First the build path is created (an early return on failure), then the
main sequence runs fail-fast remembering its error, then
SaveCompilationDatabase is called unconditionally, then the secondary
sequence runs fail-fast from the state the main sequence reached; the
overall result is the main error if any, else the secondary error if any.
The second component is the trace of events in execution order. -/
def builderRun {α E : Type} (mkBuildPath : Except E α)
    (mainCmds secondaryCmds : List (α → Except E α)) : Option E × List BuildEvent :=
  match mkBuildPath with
  | Except.error e => (some e, [])
  | Except.ok st =>
    let m := runCmds mainCmds st
    let s := runCmds secondaryCmds m.2.1
    (match m.1 with
     | some e => some e
     | none => s.1,
     ((List.range m.2.2).map BuildEvent.mainStage) ++
       BuildEvent.saveCompilationDatabase ::
         ((List.range s.2.2).map BuildEvent.secondaryStage))

/-- Go strings.ToLower, modelled at the character level: every character
is mapped to its lower-case form. -/
def goToLower (s : String) : String :=
  ⟨s.data.map Char.toLower⟩

/-- The search loop behind Go strings.Contains: does the first list occur
as a contiguous run inside the second? An empty first list is always
found, as for strings.Contains with an empty substring. -/
def hasInfix (sub : List Char) : List Char → Bool
  | [] => sub.isPrefixOf []
  | x :: xs => sub.isPrefixOf (x :: xs) || hasInfix sub xs

/-- Go strings.Contains, modelled at the character level: the second
string is an infix of the first. -/
def goContains (s sub : String) : Bool :=
  hasInfix sub.data s.data

/-- The loop of Match from arduino/utils/search.go over the already cleaned
str: each substring is lower-cased and cleaned in turn; a cleaning error
aborts with that error, a substring not contained in the cleaned str yields
false immediately, and an exhausted list yields true. The diacritic
removal rd is an external collaborator (golang.org/x/text), taken as a
parameter. -/
def matchSubs (rd : String → Except String String) (cleanStr : String) :
    List String → Except String Bool
  | [] => Except.ok true
  | sub :: rest =>
    match rd (goToLower sub) with
    | Except.error e => Except.error e
    | Except.ok cleanSub =>
      if goContains cleanStr cleanSub then matchSubs rd cleanStr rest
      else Except.ok false

/-- Match from arduino/utils/search.go: lower-case and clean str, then test
every substring with matchSubs. -/
def Match (rd : String → Except String String) (str : String) (subs : List String) :
    Except String Bool :=
  match rd (goToLower str) with
  | Except.error e => Except.error e
  | Except.ok cleanStr => matchSubs rd cleanStr subs

/-- The keyed entry the seeding pass derives from one tool: its latest
installed release paired with its PACKAGER:TOOL key, or none. -/
def toolEntry (t : Tool) : Option (String × ToolRelease) :=
  t.getLatestInstalled.map (fun r => (r.key, r))

/-- The keyed entries the seeding pass derives from one package. -/
def packageEntries (p : Package) : List (String × ToolRelease) :=
  p.tools.filterMap toolEntry

/-- The keyed entries the seeding pass derives from the whole registry. -/
def registryEntries (pm : Packages) : List (String × ToolRelease) :=
  pm.packages.flatMap packageEntries

/-! Concrete registries, boards and command lists used to instantiate the
theorems on closed inputs. -/

def boardUno : Board := ⟨"uno", fun _ => Except.ok ⟨[("build.core", "arduino_core")]⟩⟩

def relAvr : PlatformRelease := ⟨"1.8.6", true, [boardUno], []⟩

def pkgArduino : Package := ⟨"arduino", [⟨"avr", [relAvr]⟩], []⟩

def regBase : Packages := ⟨[pkgArduino]⟩

def fqbnUno : FQBN := ⟨"arduino", "avr", "uno", []⟩

def relNotInst : PlatformRelease := ⟨"1.6.2", false, [], []⟩

def regNotInstalled : Packages := ⟨[⟨"arduino", [⟨"avr", [relNotInst]⟩], []⟩]⟩

def boardIndirect : Board := ⟨"uno", fun _ => Except.ok ⟨[("build.core", "a:b")]⟩⟩

def relAvrInd : PlatformRelease := ⟨"1.0.0", true, [boardIndirect], []⟩

def relBNotInst : PlatformRelease := ⟨"2.0.0", false, [], []⟩

def pkgB : Package := ⟨"b", [⟨"avr", [relBNotInst]⟩], []⟩

def regC1 : Packages := ⟨[⟨"arduino", [⟨"avr", [relAvrInd]⟩], []⟩, pkgB]⟩

def boardMissing : Board := ⟨"uno", fun _ => Except.ok ⟨[("build.core", "x:missing")]⟩⟩

def relAvrMiss : PlatformRelease := ⟨"1.0.0", true, [boardMissing], []⟩

def regMiss : Packages := ⟨[⟨"arduino", [⟨"avr", [relAvrMiss]⟩], []⟩]⟩

def boardCoreOther : Board := ⟨"uno", fun _ => Except.ok ⟨[("build.core", "otherpkg:core")]⟩⟩

def boardCoreSecond : Board := ⟨"mega", fun _ => Except.ok ⟨[("build.core", "x:otherpkg")]⟩⟩

def relAvrC2 : PlatformRelease := ⟨"1.0.0", true, [boardCoreOther, boardCoreSecond], []⟩

def relOther : PlatformRelease := ⟨"3.1.0", true, [], []⟩

def pkgOther : Package := ⟨"otherpkg", [⟨"avr", [relOther]⟩], []⟩

def regC2 : Packages := ⟨[⟨"arduino", [⟨"avr", [relAvrC2]⟩], []⟩, pkgOther]⟩

def fqbnMega : FQBN := ⟨"arduino", "avr", "mega", []⟩

def relGcc48 : ToolRelease := ⟨"alpha", "gcc", "4.8", true⟩

def relGcc54 : ToolRelease := ⟨"alpha", "gcc", "5.4", true⟩

def relAvrdude : ToolRelease := ⟨"alpha", "avrdude", "6.3", false⟩

def relCtags : ToolRelease := ⟨"beta", "ctags", "5.8", true⟩

def pkgAlpha : Package := ⟨"alpha", [], [⟨"gcc", [relGcc48, relGcc54]⟩, ⟨"avrdude", [relAvrdude]⟩]⟩

def pkgBeta : Package := ⟨"beta", [], [⟨"ctags", [relCtags]⟩]⟩

def regTools : Packages := ⟨[pkgAlpha, pkgBeta]⟩

def prNoDeps : PlatformRelease := ⟨"1.0.0", true, [], []⟩

def relT6 : ToolRelease := ⟨"p", "t", "1.0", false⟩

def toolT6 : Tool := ⟨"t", [relT6]⟩

def regT6 : Packages := ⟨[⟨"p", [], [toolT6]⟩]⟩

def depT6 : ToolDependency := ⟨"p", "t", "1.0"⟩

def depT6Bad : ToolDependency := ⟨"p", "t", "9.9"⟩

def prDep : PlatformRelease := ⟨"1.0", true, [], [depT6]⟩

def prDepBad : PlatformRelease := ⟨"1.0", true, [], [depT6, depT6Bad]⟩

def cmdOk : Nat → Except String Nat := fun n => Except.ok (n + 1)

def cmdFail (msg : String) : Nat → Except String Nat := fun _ => Except.error msg

def mainSeqFail : List (Nat → Except String Nat) := [cmdOk, cmdFail "link failed", cmdOk]

def mainSeqOk : List (Nat → Except String Nat) := [cmdOk, cmdOk]

def secondarySeqFail : List (Nat → Except String Nat) := [cmdOk, cmdFail "size failed"]

def rdId : String → Except String String := fun s => Except.ok s

/-! Helper lemmas. -/

/-- Splitting a list without the separator yields that single part, as Go
strings.Split does for a string not containing the separator. -/
theorem splitChar_eq_single {c : Char} {l : List Char} (h : c ∉ l) : splitChar c l = [l] := by
  induction l with
  | nil => rfl
  | cons x xs ih =>
    have hxc : ¬ x = c := fun he => h (he ▸ List.mem_cons_self x xs)
    have hxs : c ∉ xs := fun hm => h (List.mem_cons_of_mem x hm)
    simp [splitChar, hxc, ih hxs]

/-- ResolveFQBN never writes to the registry. -/
theorem resolveFQBN_state (pm : Packages) (fqbn : FQBN) : (resolveFQBN pm fqbn).2 = pm := by
  unfold resolveFQBN
  repeat' split
  all_goals rfl

/-- FindToolsRequiredForBoard never writes to the registry. -/
theorem findTools_state (pm : Packages) (pr : PlatformRelease) :
    (findToolsRequiredForBoard pm pr).2 = pm := by
  unfold findToolsRequiredForBoard
  split
  all_goals rfl

/-! Theorems for the claims. -/

/-- C4: for every FQBN whose named package, platform architecture,
installed platform release, or board is absent, ResolveFQBN returns the
corresponding error (UnknownPackage, UnknownPlatform, PlatformNotInstalled,
BoardNotFound) and every entity resolved before the failing step is still
returned. -/
theorem resolveFQBN_lookup_errors (pm : Packages) (fqbn : FQBN) :
    (pm.findPackage fqbn.packageName = none →
      (resolveFQBN pm fqbn).1 =
        ⟨none, none, none, none, none,
          some (ResolveError.unknownPackage fqbn.packageName)⟩)
    ∧ (∀ p, pm.findPackage fqbn.packageName = some p →
        p.findPlatform fqbn.platformArch = none →
        (resolveFQBN pm fqbn).1 =
          ⟨some p, none, none, none, none,
            some (ResolveError.unknownPlatform p.name fqbn.platformArch)⟩)
    ∧ (∀ p pl, pm.findPackage fqbn.packageName = some p →
        p.findPlatform fqbn.platformArch = some pl →
        pl.getInstalled = none →
        (resolveFQBN pm fqbn).1 =
          ⟨some p, none, none, none, none,
            some ResolveError.platformNotInstalled⟩)
    ∧ (∀ p pl rel, pm.findPackage fqbn.packageName = some p →
        p.findPlatform fqbn.platformArch = some pl →
        pl.getInstalled = some rel →
        rel.findBoard fqbn.boardID = none →
        (resolveFQBN pm fqbn).1 =
          ⟨some p, some rel, none, none, none,
            some (ResolveError.boardNotFound fqbn.boardID)⟩) := by
  refine ⟨fun h1 => ?_, fun p h1 h2 => ?_, fun p pl h1 h2 h3 => ?_,
    fun p pl rel h1 h2 h3 h4 => ?_⟩
  · simp [resolveFQBN, h1]
  · simp [resolveFQBN, h1, h2]
  · simp [resolveFQBN, h1, h2, h3]
  · simp [resolveFQBN, h1, h2, h3, h4]

/-- C4 witness: the four lookup failures on concrete registries, each
carrying the entities resolved before the failing step. -/
theorem resolveFQBN_lookup_errors_cases :
    (resolveFQBN regBase ⟨"nope", "avr", "uno", []⟩).1 =
      ⟨none, none, none, none, none, some (ResolveError.unknownPackage "nope")⟩
    ∧ (resolveFQBN regBase ⟨"arduino", "samd", "uno", []⟩).1 =
      ⟨some pkgArduino, none, none, none, none,
        some (ResolveError.unknownPlatform "arduino" "samd")⟩
    ∧ (resolveFQBN regNotInstalled fqbnUno).1 =
      ⟨some ⟨"arduino", [⟨"avr", [relNotInst]⟩], []⟩, none, none, none, none,
        some ResolveError.platformNotInstalled⟩
    ∧ (resolveFQBN regBase ⟨"arduino", "avr", "mega2560", []⟩).1 =
      ⟨some pkgArduino, some relAvr, none, none, none,
        some (ResolveError.boardNotFound "mega2560")⟩ := by
  refine ⟨?_, ?_, ?_, ?_⟩
  · exact (resolveFQBN_lookup_errors regBase ⟨"nope", "avr", "uno", []⟩).1 rfl
  · exact (resolveFQBN_lookup_errors regBase ⟨"arduino", "samd", "uno", []⟩).2.1
      pkgArduino rfl rfl
  · exact (resolveFQBN_lookup_errors regNotInstalled fqbnUno).2.2.1
      ⟨"arduino", [⟨"avr", [relNotInst]⟩], []⟩ ⟨"avr", [relNotInst]⟩ rfl rfl rfl
  · exact (resolveFQBN_lookup_errors regBase ⟨"arduino", "avr", "mega2560", []⟩).2.2.2
      pkgArduino ⟨"avr", [relAvr]⟩ relAvr rfl rfl rfl rfl

/-- C7: for every board whose merged build.core contains no colon,
ResolveFQBN succeeds and the build platform release equals the nominally
resolved platform release. -/
theorem resolveFQBN_core_without_colon (pm : Packages) (fqbn : FQBN) (p : Package)
    (pl : Platform) (rel : PlatformRelease) (b : Board) (props : PropMap)
    (h1 : pm.findPackage fqbn.packageName = some p)
    (h2 : p.findPlatform fqbn.platformArch = some pl)
    (h3 : pl.getInstalled = some rel)
    (h4 : rel.findBoard fqbn.boardID = some b)
    (h5 : b.getBuildProperties fqbn.configs = Except.ok props)
    (h6 : ':' ∉ (props.get "build.core").data) :
    (resolveFQBN pm fqbn).1 = ⟨some p, some rel, some b, some props, some rel, none⟩ := by
  simp [resolveFQBN, h1, h2, h3, h4, h5, splitChar_eq_single h6]

/-- C7 witness: resolving arduino:avr:uno on a registry whose board has
build.core arduino_core yields the board platform release as the build
platform release. -/
theorem resolveFQBN_core_without_colon_uno :
    (resolveFQBN regBase fqbnUno).1 =
      ⟨some pkgArduino, some relAvr, some boardUno,
        some ⟨[("build.core", "arduino_core")]⟩, some relAvr, none⟩ :=
  resolveFQBN_core_without_colon regBase fqbnUno pkgArduino ⟨"avr", [relAvr]⟩ relAvr
    boardUno ⟨[("build.core", "arduino_core")]⟩ rfl rfl rfl rfl rfl (by decide)

/-- C9: ResolveFQBN and FindToolsRequiredForBoard are read-only over the
registry: the registry they return is the one they were given, and a second
call on the returned registry gives the same answer. -/
theorem resolution_read_only (pm : Packages) (fqbn : FQBN) (pr : PlatformRelease) :
    (resolveFQBN pm fqbn).2 = pm
    ∧ (findToolsRequiredForBoard pm pr).2 = pm
    ∧ resolveFQBN (resolveFQBN pm fqbn).2 fqbn = resolveFQBN pm fqbn
    ∧ findToolsRequiredForBoard (findToolsRequiredForBoard pm pr).2 pr
        = findToolsRequiredForBoard pm pr := by
  refine ⟨resolveFQBN_state pm fqbn, findTools_state pm pr, ?_, ?_⟩
  · rw [resolveFQBN_state]
  · rw [findTools_state]

/-- C3: when stage k of the main sequence fails with error e, the stages
after k are skipped (exactly the first k+1 main stages appear in the
trace), the secondary sequence still runs up to its own first failure, and
the overall result is e regardless of the secondary outcome; when no main
stage fails the overall result is the first secondary error, if any. -/
theorem builderRun_fail_fast {α E : Type} (st : α)
    (mainCmds secondaryCmds : List (α → Except E α)) :
    (∀ e stM n, runCmds mainCmds st = (some e, stM, n) →
      (builderRun (Except.ok st) mainCmds secondaryCmds).1 = some e
      ∧ (builderRun (Except.ok st) mainCmds secondaryCmds).2 =
          ((List.range n).map BuildEvent.mainStage) ++
            BuildEvent.saveCompilationDatabase ::
              ((List.range (runCmds secondaryCmds stM).2.2).map BuildEvent.secondaryStage))
    ∧ (∀ stM n, runCmds mainCmds st = (none, stM, n) →
      (builderRun (Except.ok st) mainCmds secondaryCmds).1 =
        (runCmds secondaryCmds stM).1) := by
  constructor
  · intro e stM n h
    constructor <;> simp [builderRun, h]
  · intro stM n h
    simp [builderRun, h]

/-- C3 witness: with a three-command main sequence failing at stage 1 and
a secondary sequence failing at its own stage 1, the run reports the main
error, runs main stages 0 and 1 only, still runs the secondary sequence,
and with a successful main sequence the secondary error surfaces. -/
theorem builderRun_fail_fast_demo :
    (builderRun (Except.ok 0) mainSeqFail secondarySeqFail).1 = some "link failed"
    ∧ (builderRun (Except.ok 0) mainSeqFail secondarySeqFail).2 =
        [BuildEvent.mainStage 0, BuildEvent.mainStage 1,
          BuildEvent.saveCompilationDatabase,
          BuildEvent.secondaryStage 0, BuildEvent.secondaryStage 1]
    ∧ (builderRun (Except.ok 0) mainSeqOk secondarySeqFail).1 = some "size failed" := by
  refine ⟨?_, ?_, ?_⟩
  · exact ((builderRun_fail_fast 0 mainSeqFail secondarySeqFail).1
      "link failed" 1 2 (by decide)).1
  · exact (((builderRun_fail_fast 0 mainSeqFail secondarySeqFail).1
      "link failed" 1 2 (by decide)).2).trans (by decide)
  · exact ((builderRun_fail_fast 0 mainSeqOk secondarySeqFail).2 2 2 (by decide)).trans
      (by decide)

/-- C8: whenever the main sequence runs, the compilation database is saved
exactly once, after all executed main stages and before any secondary
stage. -/
theorem builderRun_saves_db {α E : Type} (st : α)
    (mainCmds secondaryCmds : List (α → Except E α)) :
    ∃ A B, (builderRun (Except.ok st) mainCmds secondaryCmds).2 =
        A ++ BuildEvent.saveCompilationDatabase :: B
      ∧ (∀ ev ∈ A, ∃ i, ev = BuildEvent.mainStage i)
      ∧ (∀ ev ∈ B, ∃ i, ev = BuildEvent.secondaryStage i)
      ∧ (builderRun (Except.ok st) mainCmds secondaryCmds).2.count
          BuildEvent.saveCompilationDatabase = 1 := by
  refine ⟨(List.range (runCmds mainCmds st).2.2).map BuildEvent.mainStage,
    (List.range (runCmds secondaryCmds (runCmds mainCmds st).2.1).2.2).map
      BuildEvent.secondaryStage, rfl, ?_, ?_, ?_⟩
  · intro ev hev
    rcases List.mem_map.1 hev with ⟨i, _, rfl⟩
    exact ⟨i, rfl⟩
  · intro ev hev
    rcases List.mem_map.1 hev with ⟨i, _, rfl⟩
    exact ⟨i, rfl⟩
  · have hA : ((List.range (runCmds mainCmds st).2.2).map BuildEvent.mainStage).count
        BuildEvent.saveCompilationDatabase = 0 :=
      List.count_eq_zero_of_not_mem (by simp)
    have hB : ((List.range (runCmds secondaryCmds (runCmds mainCmds st).2.1).2.2).map
        BuildEvent.secondaryStage).count BuildEvent.saveCompilationDatabase = 0 :=
      List.count_eq_zero_of_not_mem (by simp)
    show (_ ++ BuildEvent.saveCompilationDatabase :: _).count _ = 1
    rw [List.count_append, hA, List.count_cons_self, hB]

/-- C1 counterexample: a board whose merged build.core is the two-part
value a:b, where the package a is absent from the registry altogether and
the package b is present but has no installed release for the avr
architecture. The claim requires resolution to fail with MissingCorePackage
under either reading of the referenced package; the code succeeds, with a
none build platform release. -/
theorem resolveFQBN_missing_core_claim_fails :
    (resolveFQBN regC1 fqbnUno).1.buildProperties = some ⟨[("build.core", "a:b")]⟩
    ∧ regC1.findPackage "a" = none
    ∧ regC1.findPackage "b" = some pkgB
    ∧ pkgB.findPlatform "avr" = some ⟨"avr", [relBNotInst]⟩
    ∧ Platform.getInstalled ⟨"avr", [relBNotInst]⟩ = none
    ∧ (resolveFQBN regC1 fqbnUno).1.err = none
    ∧ (resolveFQBN regC1 fqbnUno).1.buildPlatformRelease = none :=
  ⟨rfl, rfl, rfl, rfl, rfl, rfl, rfl⟩

/-- C1 (amended): when the merged build.core is two-part, the code resolves
the package named by the component after the first colon; if that package
is absent, ResolveFQBN fails with MissingCorePackage, still returning the
package, platform release, board and build properties with a none build
platform release; if that package is present, resolution succeeds and the
build platform release is the installed release of its platform for the
FQBN architecture, which is none when there is no such installed release. -/
theorem resolveFQBN_missing_core_package (pm : Packages) (fqbn : FQBN) (p : Package)
    (pl : Platform) (rel : PlatformRelease) (b : Board) (props : PropMap)
    (part0 part1 : List Char) (rest : List (List Char))
    (h1 : pm.findPackage fqbn.packageName = some p)
    (h2 : p.findPlatform fqbn.platformArch = some pl)
    (h3 : pl.getInstalled = some rel)
    (h4 : rel.findBoard fqbn.boardID = some b)
    (h5 : b.getBuildProperties fqbn.configs = Except.ok props)
    (h6 : splitChar ':' (props.get "build.core").data = part0 :: part1 :: rest) :
    (pm.findPackage (String.mk part1) = none →
      (resolveFQBN pm fqbn).1 =
        ⟨some p, some rel, some b, some props, none,
          some (ResolveError.missingCorePackage (String.mk part1))⟩)
    ∧ (∀ bp, pm.findPackage (String.mk part1) = some bp →
        (resolveFQBN pm fqbn).1 =
          ⟨some p, some rel, some b, some props,
            (bp.findPlatform fqbn.platformArch).bind Platform.getInstalled, none⟩) := by
  constructor
  · intro h7
    simp [resolveFQBN, h1, h2, h3, h4, h5, h6, h7]
  · intro bp h7
    simp [resolveFQBN, h1, h2, h3, h4, h5, h6, h7]

/-- C1 (amended) witness: with build.core x:missing and no package named
missing the resolution fails with MissingCorePackage and full partial
results; with build.core a:b and package b present but not installed the
resolution succeeds with a none build platform release. -/
theorem resolveFQBN_missing_core_package_cases :
    (resolveFQBN regMiss fqbnUno).1 =
      ⟨some ⟨"arduino", [⟨"avr", [relAvrMiss]⟩], []⟩, some relAvrMiss, some boardMissing,
        some ⟨[("build.core", "x:missing")]⟩, none,
        some (ResolveError.missingCorePackage "missing")⟩
    ∧ (resolveFQBN regC1 fqbnUno).1 =
      ⟨some ⟨"arduino", [⟨"avr", [relAvrInd]⟩], []⟩, some relAvrInd, some boardIndirect,
        some ⟨[("build.core", "a:b")]⟩, none, none⟩ := by
  constructor
  · exact (resolveFQBN_missing_core_package regMiss fqbnUno
      ⟨"arduino", [⟨"avr", [relAvrMiss]⟩], []⟩ ⟨"avr", [relAvrMiss]⟩ relAvrMiss
      boardMissing ⟨[("build.core", "x:missing")]⟩ "x".data "missing".data []
      rfl rfl rfl rfl rfl rfl).1 rfl
  · exact (resolveFQBN_missing_core_package regC1 fqbnUno
      ⟨"arduino", [⟨"avr", [relAvrInd]⟩], []⟩ ⟨"avr", [relAvrInd]⟩ relAvrInd
      boardIndirect ⟨[("build.core", "a:b")]⟩ "a".data "b".data []
      rfl rfl rfl rfl rfl rfl).2 pkgB rfl

/-- C2 counterexample: a board whose merged build.core is otherpkg:core,
with the package otherpkg present and carrying an installed release for the
avr architecture. The claim requires success with that release as the
build platform release; the code instead looks up the component after the
colon, the absent package core, and fails with MissingCorePackage. -/
theorem resolveFQBN_core_indirection_claim_fails :
    (resolveFQBN regC2 fqbnUno).1.buildProperties =
      some ⟨[("build.core", "otherpkg:core")]⟩
    ∧ regC2.findPackage "otherpkg" = some pkgOther
    ∧ pkgOther.findPlatform "avr" = some ⟨"avr", [relOther]⟩
    ∧ Platform.getInstalled ⟨"avr", [relOther]⟩ = some relOther
    ∧ (resolveFQBN regC2 fqbnUno).1.err = some (ResolveError.missingCorePackage "core")
    ∧ (resolveFQBN regC2 fqbnUno).1.buildPlatformRelease = none :=
  ⟨rfl, rfl, rfl, rfl, rfl, rfl⟩

/-- C2 (amended): when the merged build.core is the two-part value a:b and
the package named b (the component after the colon, the one the code
resolves) is present with an installed release for the same architecture,
ResolveFQBN succeeds and returns that installed release as the build
platform release. -/
theorem resolveFQBN_core_indirection (pm : Packages) (fqbn : FQBN) (p : Package)
    (pl : Platform) (rel : PlatformRelease) (b : Board) (props : PropMap)
    (part0 part1 : List Char) (rest : List (List Char))
    (bp : Package) (bpl : Platform) (brel : PlatformRelease)
    (h1 : pm.findPackage fqbn.packageName = some p)
    (h2 : p.findPlatform fqbn.platformArch = some pl)
    (h3 : pl.getInstalled = some rel)
    (h4 : rel.findBoard fqbn.boardID = some b)
    (h5 : b.getBuildProperties fqbn.configs = Except.ok props)
    (h6 : splitChar ':' (props.get "build.core").data = part0 :: part1 :: rest)
    (h7 : pm.findPackage (String.mk part1) = some bp)
    (h8 : bp.findPlatform fqbn.platformArch = some bpl)
    (h9 : bpl.getInstalled = some brel) :
    (resolveFQBN pm fqbn).1 = ⟨some p, some rel, some b, some props, some brel, none⟩ := by
  simp [resolveFQBN, h1, h2, h3, h4, h5, h6, h7, h8, h9, Option.bind]

/-- C2 (amended) witness: with build.core x:otherpkg and otherpkg holding
an installed avr release, resolution succeeds and the build platform
release is that release, which differs from the platform release of the
board itself. -/
theorem resolveFQBN_core_indirection_mega :
    (resolveFQBN regC2 fqbnMega).1 =
      ⟨some ⟨"arduino", [⟨"avr", [relAvrC2]⟩], []⟩, some relAvrC2, some boardCoreSecond,
        some ⟨[("build.core", "x:otherpkg")]⟩, some relOther, none⟩
    ∧ relOther.version ≠ relAvrC2.version :=
  ⟨resolveFQBN_core_indirection regC2 fqbnMega
    ⟨"arduino", [⟨"avr", [relAvrC2]⟩], []⟩ ⟨"avr", [relAvrC2]⟩ relAvrC2
    boardCoreSecond ⟨[("build.core", "x:otherpkg")]⟩ "x".data "otherpkg".data []
    pkgOther ⟨"avr", [relOther]⟩ relOther rfl rfl rfl rfl rfl rfl rfl rfl rfl,
   by decide⟩

/-- Running the dependency override loop on a list whose resolvable head
dependencies are followed by an unresolvable one aborts with the error
naming that first unresolvable dependency. -/
theorem applyDeps_first_missing (pm : Packages) (dep : ToolDependency)
    (post : List ToolDependency) :
    ∀ (pre : List ToolDependency) (m : ToolMap),
      (∀ d ∈ pre, (findToolDependency pm d).isSome = true) →
      findToolDependency pm dep = none →
      applyDeps pm (pre ++ dep :: post) m =
        Except.error (FindToolsError.toolReleaseNotFound dep)
  | [], m => by
    intro _ hdep
    simp [applyDeps, hdep]
  | d :: pre, m => by
    intro hpre hdep
    have hd := hpre d (List.mem_cons_self _ _)
    cases hfd : findToolDependency pm d with
    | none =>
      rw [hfd] at hd
      simp at hd
    | some rel =>
      simp only [List.cons_append, applyDeps, hfd]
      exact applyDeps_first_missing pm dep post pre (ToolMap.insert m rel.key rel)
        (fun x hx => hpre x (List.mem_cons_of_mem _ hx)) hdep

/-- C6 (amended): when the owning platform release declares an explicit
dependency that does not resolve to any release of the registry (absent
package, tool, or version), FindToolsRequiredForBoard fails with
ToolReleaseNotFound naming the first such dependency and returns no
partial tool set; a dependency on a present but uninstalled version does
resolve (see the counterexample). -/
theorem findTools_dep_unresolved (pm : Packages) (pr : PlatformRelease)
    (pre post : List ToolDependency) (dep : ToolDependency)
    (hdeps : pr.dependencies = pre ++ dep :: post)
    (hpre : ∀ d ∈ pre, (findToolDependency pm d).isSome = true)
    (hdep : findToolDependency pm dep = none) :
    (findToolsRequiredForBoard pm pr).1 =
      Except.error (FindToolsError.toolReleaseNotFound dep) := by
  unfold findToolsRequiredForBoard
  rw [hdeps, applyDeps_first_missing pm dep post pre _ hpre hdep]

/-- C6 (amended) witness: a platform declaring a resolvable dependency
followed by a dependency on a version absent from the registry fails with
ToolReleaseNotFound naming the absent one. -/
theorem findTools_dep_unresolved_demo :
    (findToolsRequiredForBoard regT6 prDepBad).1 =
      Except.error (FindToolsError.toolReleaseNotFound depT6Bad) :=
  findTools_dep_unresolved regT6 prDepBad [depT6] [] depT6Bad rfl (by decide) rfl

/-- C6 counterexample: a dependency on a tool version that is present in
the registry but not installed resolves successfully, and the not-installed
release is returned in the tool set, contradicting the claim that such a
dependency makes FindToolsRequiredForBoard fail. -/
theorem findTools_uninstalled_dep_succeeds :
    prDep.dependencies = [depT6]
    ∧ toolT6.getRelease "1.0" = some relT6
    ∧ relT6.installed = false
    ∧ (findToolsRequiredForBoard regT6 prDep).1 = Except.ok [relT6] :=
  ⟨rfl, rfl, rfl, rfl⟩

/-- The contains model agrees with list infix: hasInfix finds sub in l
exactly when sub is a contiguous sublist of l. -/
theorem hasInfix_spec (sub : List Char) : ∀ (l : List Char),
    hasInfix sub l = true ↔ sub <:+: l
  | [] => by
    simp [hasInfix, List.isPrefixOf_iff_prefix, List.prefix_nil, List.infix_nil]
  | x :: xs => by
    rw [List.infix_cons_iff]
    simp [hasInfix, List.isPrefixOf_iff_prefix, hasInfix_spec sub xs]

/-- goContains agrees with list infix on the character lists. -/
theorem goContains_spec (s sub : String) :
    goContains s sub = true ↔ sub.data <:+: s.data :=
  hasInfix_spec sub.data s.data

/-- The substring loop of Match returns ok true exactly when every cleaned
substring is contained in the cleaned str, provided every cleaning
succeeds. -/
theorem matchSubs_ok_true_iff (rd : String → Except String String) (c : String) :
    ∀ (subs : List String),
      (∀ sub ∈ subs, (rd (goToLower sub)).isOk = true) →
      (matchSubs rd c subs = Except.ok true ↔
        ∀ sub ∈ subs, ∀ cs, rd (goToLower sub) = Except.ok cs →
          goContains c cs = true)
  | [] => by
    intro _
    simp [matchSubs]
  | sub :: rest => by
    intro hall
    cases hrd : rd (goToLower sub) with
    | error e =>
      have hs := hall sub (List.mem_cons_self _ _)
      rw [hrd] at hs
      simp [Except.isOk, Except.toBool] at hs
    | ok cs =>
      by_cases hc : goContains c cs = true
      · have ihr := matchSubs_ok_true_iff rd c rest
          (fun s hs => hall s (List.mem_cons_of_mem _ hs))
        simp only [matchSubs, hrd, hc, if_true]
        rw [ihr]
        constructor
        · intro h s hs cs2 hcs2
          rcases List.mem_cons.1 hs with rfl | hs2
          · rw [hrd] at hcs2
            cases hcs2
            exact hc
          · exact h s hs2 cs2 hcs2
        · intro h s hs cs2 hcs2
          exact h s (List.mem_cons_of_mem _ hs) cs2 hcs2
      · simp only [matchSubs, hrd, hc, if_false]
        constructor
        · intro h
          simp at h
        · intro h
          exact absurd (h sub (List.mem_cons_self _ _) cs hrd) hc

/-- C10: Match returns ok true on an empty substring list, and in general
returns ok true exactly when every substring, lower-cased and cleaned of
diacritics, is a contained substring (a contiguous character run) of the
lower-cased and cleaned str; the hypotheses record that the cleaning
transformer succeeds on the involved strings, since a transformer error
propagates as an error instead. -/
theorem match_contains_characterization (rd : String → Except String String)
    (str : String) (subs : List String) (c : String)
    (hstr : rd (goToLower str) = Except.ok c) :
    (subs = [] → Match rd str subs = Except.ok true)
    ∧ ((∀ sub ∈ subs, (rd (goToLower sub)).isOk = true) →
      (Match rd str subs = Except.ok true ↔
        ∀ sub ∈ subs, ∀ cs, rd (goToLower sub) = Except.ok cs →
          cs.data <:+: c.data)) := by
  constructor
  · rintro rfl
    simp [Match, hstr, matchSubs]
  · intro hall
    simp only [Match, hstr]
    rw [matchSubs_ok_true_iff rd c subs hall]
    constructor
    · intro h s hs cs hcs
      exact (goContains_spec c cs).1 (h s hs cs hcs)
    · intro h s hs cs hcs
      exact (goContains_spec c cs).2 (h s hs cs hcs)

/-- C10 witness: with the identity transformer, the empty substring list
matches, and a list of two contained substrings matches the lower-cased
str. -/
theorem match_contains_characterization_demo :
    Match rdId "Arduino Uno" [] = Except.ok true
    ∧ Match rdId "Arduino Uno" ["uno", "ard"] = Except.ok true := by
  constructor
  · exact (match_contains_characterization rdId "Arduino Uno" [] "arduino uno"
      (congrArg Except.ok (by decide))).1 rfl
  · refine ((match_contains_characterization rdId "Arduino Uno" ["uno", "ard"]
      "arduino uno" (congrArg Except.ok (by decide))).2 (by decide)).mpr ?_
    intro sub hsub cs hcs
    simp only [rdId, Except.ok.injEq] at hcs
    subst hcs
    simp only [List.mem_cons, List.not_mem_nil, or_false] at hsub
    rcases hsub with rfl | rfl
    · exact (goContains_spec "arduino uno" (goToLower "uno")).1 (by decide)
    · exact (goContains_spec "arduino uno" (goToLower "ard")).1 (by decide)

/-- The release selected by getLatestInstalled is one of the tool
releases. -/
theorem latest_fold_mem :
    ∀ (l : List ToolRelease) (acc : Option ToolRelease) (r : ToolRelease),
      l.foldl
        (fun acc r =>
          match acc with
          | none => some r
          | some b => if versionLt b.version r.version then some r else some b)
        acc = some r →
      acc = some r ∨ r ∈ l
  | [], acc, r => fun h => Or.inl h
  | x :: xs, acc, r => by
    intro h
    rcases latest_fold_mem xs _ r h with hstep | hmem
    · cases acc with
      | none =>
        simp only at hstep
        cases hstep
        exact Or.inr (List.mem_cons_self _ _)
      | some b =>
        simp only at hstep
        by_cases hv : versionLt b.version x.version
        · rw [if_pos hv] at hstep
          cases hstep
          exact Or.inr (List.mem_cons_self _ _)
        · rw [if_neg hv] at hstep
          exact Or.inl hstep
    · exact Or.inr (List.mem_cons_of_mem _ hmem)

/-- The release selected by getLatestInstalled belongs to the tool. -/
theorem getLatestInstalled_mem {t : Tool} {r : ToolRelease}
    (h : t.getLatestInstalled = some r) : r ∈ t.releases := by
  unfold Tool.getLatestInstalled at h
  rcases latest_fold_mem _ _ _ h with hacc | hmem
  · cases hacc
  · exact List.mem_of_mem_filter hmem

/-- Under the back-reference invariant, the key of the entry derived from
a tool is packageName:toolName. -/
theorem toolEntry_key {nm : String} {t : Tool} {e : String × ToolRelease}
    (hback : ∀ r ∈ t.releases, r.packager = nm ∧ r.toolName = t.name)
    (he : toolEntry t = some e) : e.1 = nm ++ ":" ++ t.name := by
  unfold toolEntry at he
  cases hl : t.getLatestInstalled with
  | none => rw [hl] at he; cases he
  | some r =>
    rw [hl] at he
    cases he
    rcases hback r (getLatestInstalled_mem hl) with ⟨hp, hn⟩
    simp [ToolRelease.key, hp, hn]

/-- Every key of the entries of a package names the package and one of its
tools. -/
theorem packageEntries_key_mem {nm : String} {ts : List Tool}
    (hback : ∀ t ∈ ts, ∀ r ∈ t.releases, r.packager = nm ∧ r.toolName = t.name)
    {k : String} (hk : k ∈ (ts.filterMap toolEntry).map Prod.fst) :
    ∃ t ∈ ts, k = nm ++ ":" ++ t.name := by
  rcases List.mem_map.1 hk with ⟨e, he, rfl⟩
  rcases List.mem_filterMap.1 he with ⟨t, ht, hte⟩
  exact ⟨t, ht, toolEntry_key (hback t ht) hte⟩

/-- Cutting two colon-separated concatenations at the first colon: if
neither left part contains a colon, the parts coincide. -/
theorem colon_append_inj :
    ∀ (a c b d : List Char), ':' ∉ a → ':' ∉ c →
      a ++ ':' :: b = c ++ ':' :: d → a = c ∧ b = d
  | [], [], b, d => by
    intro _ _ h
    injection h with _ h2
    exact ⟨rfl, h2⟩
  | [], x :: cs, b, d => by
    intro _ hc h
    injection h with h1 _
    subst h1
    exact absurd (List.mem_cons_self _ _) hc
  | x :: as, [], b, d => by
    intro ha _ h
    injection h with h1 _
    subst h1
    exact absurd (List.mem_cons_self _ _) ha
  | x :: as, y :: cs, b, d => by
    intro ha hc h
    injection h with h1 h2
    subst h1
    rcases colon_append_inj as cs b d (fun hm => ha (List.mem_cons_of_mem _ hm))
      (fun hm => hc (List.mem_cons_of_mem _ hm)) h2 with ⟨h3, h4⟩
    exact ⟨by rw [h3], h4⟩

/-- PACKAGER:TOOL keys built from colon-free package names are injective
in both components. -/
theorem key_inj {p1 t1 p2 t2 : String} (h1 : GoodName p1) (h2 : GoodName p2)
    (h : p1 ++ ":" ++ t1 = p2 ++ ":" ++ t2) : p1 = p2 ∧ t1 = t2 := by
  have hdata := congrArg String.data h
  rw [String.data_append, String.data_append, String.data_append,
    String.data_append] at hdata
  have hcolon : (":" : String).data = [':'] := rfl
  rw [hcolon, List.append_assoc, List.append_assoc, List.singleton_append,
    List.singleton_append] at hdata
  rcases colon_append_inj p1.data p2.data t1.data t2.data h1 h2 hdata with ⟨ha, hb⟩
  exact ⟨String.ext ha, String.ext hb⟩

/-- Keys with the same package component are injective in the tool
component. -/
theorem key_cancel {nm t1 t2 : String} (h : nm ++ ":" ++ t1 = nm ++ ":" ++ t2) :
    t1 = t2 := by
  have hdata := congrArg String.data h
  rw [String.data_append, String.data_append, String.data_append,
    String.data_append, List.append_assoc, List.append_assoc] at hdata
  exact String.ext (List.append_cancel_left (List.append_cancel_left hdata))

/-- Within one package the keys of the derived entries are distinct. -/
theorem packageEntries_keys_nodup {nm : String} :
    ∀ (ts : List Tool),
      (∀ t ∈ ts, ∀ r ∈ t.releases, r.packager = nm ∧ r.toolName = t.name) →
      (ts.map Tool.name).Nodup →
      ((ts.filterMap toolEntry).map Prod.fst).Nodup
  | [] => by
    intro _ _
    simp
  | t :: rest => by
    intro hback hnames
    have hrest : ∀ x ∈ rest, ∀ r ∈ x.releases, r.packager = nm ∧ r.toolName = x.name :=
      fun x hx => hback x (List.mem_cons_of_mem _ hx)
    have hnames2 := (List.nodup_cons.1 hnames).2
    have hhead : t.name ∉ rest.map Tool.name := (List.nodup_cons.1 hnames).1
    cases he : toolEntry t with
    | none =>
      simp only [List.filterMap_cons_none he]
      exact packageEntries_keys_nodup rest hrest hnames2
    | some e =>
      simp only [List.filterMap_cons_some he, List.map_cons]
      refine List.nodup_cons.2 ⟨?_, packageEntries_keys_nodup rest hrest hnames2⟩
      intro hmem
      rcases packageEntries_key_mem hrest hmem with ⟨t2, ht2, hk2⟩
      have hk1 := toolEntry_key (hback t (List.mem_cons_self _ _)) he
      have : t.name = t2.name := key_cancel (hk1 ▸ hk2)
      exact hhead (this ▸ List.mem_map_of_mem Tool.name ht2)

/-- Under registry well-formedness all keys of the seeded entries are
distinct, across packages included. -/
theorem registryEntries_keys_nodup (pm : Packages) (hwf : pm.WellFormed) :
    ((registryEntries pm).map Prod.fst).Nodup := by
  unfold registryEntries
  rw [List.map_flatMap]
  refine List.nodup_flatMap.2 ⟨?_, ?_⟩
  · intro p hp
    rcases hwf.2 p hp with ⟨_, hnames, hback⟩
    exact packageEntries_keys_nodup p.tools hback hnames
  · have hpair : pm.packages.Pairwise (fun a b => a.name ≠ b.name) :=
      List.pairwise_map.1 hwf.1
    refine hpair.imp_of_mem ?_
    intro p q hp hq hne k hk1 hk2
    rcases hwf.2 p hp with ⟨hgp, _, hbackp⟩
    rcases hwf.2 q hq with ⟨hgq, _, hbackq⟩
    rcases packageEntries_key_mem hbackp hk1 with ⟨t1, _, hk1e⟩
    rcases packageEntries_key_mem hbackq hk2 with ⟨t2, _, hk2e⟩
    exact hne (key_inj hgp hgq (hk1e.symm.trans hk2e)).1

/-- Inserting a fresh key into the tool map appends the entry. -/
theorem insert_of_fresh (m : ToolMap) (k : String) (v : ToolRelease)
    (h : k ∉ m.map Prod.fst) : ToolMap.insert m k v = m ++ [(k, v)] := by
  unfold ToolMap.insert
  rw [if_neg]
  intro hany
  rcases List.any_eq_true.1 hany with ⟨e, he, hek⟩
  have hek2 : e.1 = k := by simpa using hek
  exact h (hek2 ▸ List.mem_map_of_mem Prod.fst he)

/-- Folding insertions of entries whose keys are distinct and absent from
the map appends all of them in order. -/
theorem foldl_insert_of_fresh :
    ∀ (l : List (String × ToolRelease)) (m : ToolMap),
      (l.map Prod.fst).Nodup →
      (∀ k ∈ l.map Prod.fst, k ∉ m.map Prod.fst) →
      l.foldl (fun m e => ToolMap.insert m e.1 e.2) m = m ++ l
  | [], m => by
    intro _ _
    simp
  | e :: rest, m => by
    intro hn hd
    have hn2 : (rest.map Prod.fst).Nodup := (List.nodup_cons.1 (by simpa using hn)).2
    have hh : e.1 ∉ rest.map Prod.fst := (List.nodup_cons.1 (by simpa using hn)).1
    have hfresh : e.1 ∉ m.map Prod.fst := hd e.1 (by simp)
    have hstep : ToolMap.insert m e.1 e.2 = m ++ [e] := by
      rw [insert_of_fresh m e.1 e.2 hfresh]
    rw [List.foldl_cons, hstep,
      foldl_insert_of_fresh rest (m ++ [e]) hn2 ?_]
    · rw [List.append_assoc, List.singleton_append]
    · intro k hk hmem
      rw [List.map_append] at hmem
      rcases List.mem_append.1 hmem with h1 | h2
      · exact hd k (List.mem_cons_of_mem _ hk) h1
      · have : k = e.1 := by simpa using h2
        exact hh (this ▸ hk)

/-- The inner seeding loop over the tools of one package folds exactly the
keyed entries of that package. -/
theorem seedTools_tools_eq :
    ∀ (ts : List Tool) (m : ToolMap),
      ts.foldl
        (fun m t =>
          match t.getLatestInstalled with
          | some rel => ToolMap.insert m rel.key rel
          | none => m)
        m
      = (ts.filterMap toolEntry).foldl (fun m e => ToolMap.insert m e.1 e.2) m
  | [], _ => rfl
  | t :: rest, m => by
    cases hl : t.getLatestInstalled with
    | none =>
      simp only [List.foldl_cons, List.filterMap_cons, toolEntry, hl, Option.map_none]
      exact seedTools_tools_eq rest m
    | some rel =>
      simp only [List.foldl_cons, List.filterMap_cons, toolEntry, hl, Option.map_some]
      exact seedTools_tools_eq rest _

/-- The seeding pass folds exactly the keyed entries of the registry. -/
theorem seed_pkgs_eq :
    ∀ (ps : List Package) (m : ToolMap),
      ps.foldl
        (fun m p =>
          p.tools.foldl
            (fun m t =>
              match t.getLatestInstalled with
              | some rel => ToolMap.insert m rel.key rel
              | none => m)
            m)
        m
      = (ps.flatMap packageEntries).foldl (fun m e => ToolMap.insert m e.1 e.2) m
  | [], _ => rfl
  | p :: rest, m => by
    rw [List.foldl_cons, List.flatMap_cons, List.foldl_append]
    rw [show p.tools.foldl
        (fun m t =>
          match t.getLatestInstalled with
          | some rel => ToolMap.insert m rel.key rel
          | none => m)
        m = (packageEntries p).foldl (fun m e => ToolMap.insert m e.1 e.2) m from
      seedTools_tools_eq p.tools m]
    exact seed_pkgs_eq rest _

/-- seedTools is the entry fold over the whole registry. -/
theorem seedTools_eq (pm : Packages) (m : ToolMap) :
    seedTools pm m =
      (registryEntries pm).foldl (fun m e => ToolMap.insert m e.1 e.2) m :=
  seed_pkgs_eq pm.packages m

/-- The values of the registry entries are the latest installed releases. -/
theorem registryEntries_snd (pm : Packages) :
    (registryEntries pm).map Prod.snd = latestToolReleases pm := by
  unfold registryEntries latestToolReleases
  rw [List.map_flatMap]
  congr 1
  funext p
  unfold packageEntries
  rw [List.map_filterMap]
  congr 1
  funext t
  unfold toolEntry
  cases t.getLatestInstalled <;> rfl

/-- The keys of the registry entries are the keys of the latest installed
releases. -/
theorem registryEntries_fst (pm : Packages) :
    (registryEntries pm).map Prod.fst = (latestToolReleases pm).map ToolRelease.key := by
  unfold registryEntries latestToolReleases
  rw [List.map_flatMap, List.map_flatMap]
  congr 1
  funext p
  unfold packageEntries
  rw [List.map_filterMap, List.map_filterMap]
  congr 1
  funext t
  unfold toolEntry
  cases t.getLatestInstalled <;> rfl

/-- C5: for every board whose owning platform release declares no explicit
tool dependency, FindToolsRequiredForBoard succeeds and returns exactly the
latest installed release of every tool of every package of the registry
(tools with no installed release skipped), with exactly one release per
PACKAGER:TOOL key; the well-formedness hypothesis records the distinctness
of registry names and the release back-references that hold by construction
in Go. -/
theorem findTools_no_deps (pm : Packages) (pr : PlatformRelease)
    (hwf : pm.WellFormed) (hdeps : pr.dependencies = []) :
    (findToolsRequiredForBoard pm pr).1 = Except.ok (latestToolReleases pm)
    ∧ ((latestToolReleases pm).map ToolRelease.key).Nodup := by
  have hkeys := registryEntries_keys_nodup pm hwf
  have hseed : seedTools pm [] = registryEntries pm := by
    rw [seedTools_eq, foldl_insert_of_fresh _ _ hkeys (fun k _ hk => by simp at hk)]
    simp
  constructor
  · unfold findToolsRequiredForBoard
    rw [hdeps]
    simp only [applyDeps]
    rw [hseed]
    exact congrArg Except.ok (registryEntries_snd pm)
  · rw [← registryEntries_fst]
    exact hkeys

/-- C5 witness: a registry with two packages, two installed gcc releases,
an uninstalled avrdude and an installed ctags, and a platform with no
dependencies: the result is the latest gcc and the ctags release, one per
key. -/
theorem findTools_no_deps_demo :
    (findToolsRequiredForBoard regTools prNoDeps).1 =
      Except.ok (latestToolReleases regTools)
    ∧ latestToolReleases regTools = [relGcc54, relCtags]
    ∧ ((latestToolReleases regTools).map ToolRelease.key).Nodup := by
  have hwf : regTools.WellFormed := by decide
  exact ⟨(findTools_no_deps regTools prNoDeps hwf rfl).1, by decide,
    (findTools_no_deps regTools prNoDeps hwf rfl).2⟩

end ArduinoCli
